import Mathlib

/-!
# Verification of the nested-name-list recognizers

Shallow embedding of the Go sources of the language-implementation-patterns
repository: the chapter-2 LL(1) lexer and parsers (`src/chapter2/lexer.go`,
`src/chapter2/parser.go`, `src/chapter2/llkparser.go`) and the chapter-3
backtracking parser with its lexer (`src/chapter3/main.go`,
`src/chapter3/parser.go`).

Go's stateful methods become explicit state passing: a method on `*T`
returning `error` becomes a Lean function `T -> Except Err A × T`, where a Go
`panic` is the `Except.error` case (the resulting state is carried alongside,
because a recovering caller in Go observes the mutations made before the
panic).  Recursion that Go runs as loops or mutual recursion takes an
explicit fuel argument; fuel exhaustion is a distinguished error that no
theorem of this file converts into program behavior.
-/

set_option maxRecDepth 10000

deriving instance DecidableEq for Except

/-- Token kinds, from the `TokenType` constant block of `src/chapter3/main.go`
(the chapter-2 block in `src/chapter2/lexer.go` lists the same names without
`Equals`; its lexer simply never produces `Equals`). -/
inductive TokenType where
  | EOF
  | LBrack
  | RBrack
  | Name
  | Comma
  | Equals
deriving DecidableEq, Repr

/-- A lexed token: `type Token struct { Type TokenType; Text string }`.
The Go zero value `Token\x7b\x7d` is `⟨.EOF, ""⟩`. -/
structure Token where
  type : TokenType
  text : String
deriving DecidableEq, Repr

instance : Inhabited Token := ⟨⟨.EOF, ""⟩⟩

/-- `isLetter` from `src/chapter2/lexer.go` lines 102-104; the same body
appears in `src/chapter3/main.go` lines 127-129 and `src/unnamed/part_000`
lines 81-83: `r >= 'a' && r < 'z' || r >= 'A' && r <= 'Z'`.
Note the strict `< 'z'` on the lowercase range. -/
def isLetter (r : Char) : Bool :=
  ('a' ≤ r && r < 'z') || ('A' ≤ r && r ≤ 'Z')

/-- The letter alphabet of the grammar's NAME rule, as the spec (and the
grammar comments in every Go file) state it: `[a-zA-Z]`.  This is the
spec-side definition that `isLetter` is compared against. -/
def specIsLetter (r : Char) : Bool :=
  ('a' ≤ r && r ≤ 'z') || ('A' ≤ r && r ≤ 'Z')

namespace chapter3

/-- The lexer of `src/chapter3/main.go`: input as a rune sequence, current
position, cached current rune (`none` models the sentinel `eof = rune(-1)`),
and the `stopped` flag polled by `Scan`. -/
structure Lexer where
  input : List Char
  pos : Nat
  current : Option Char
  stopped : Bool
deriving DecidableEq, Repr

/-- `NewLexer` of `src/chapter3/main.go`: empty input starts at the eof
sentinel, otherwise at the first rune. -/
def newLexer (s : String) : Lexer :=
  if s = "" then { input := [], pos := 0, current := none, stopped := false }
  else { input := s.toList, pos := 0, current := s.toList.head?, stopped := false }

/-- `Lexer.consume`: advance the position and cache the next rune, or the
eof sentinel past the end. -/
def consume (l : Lexer) : Lexer :=
  let pos := l.pos + 1
  if pos ≥ l.input.length then { l with pos := pos, current := none }
  else { l with pos := pos, current := l.input.get? pos }

/-- `Lexer.Scan`: `return !lex.stopped`.  A pure observation of the state. -/
def scan (l : Lexer) : Bool := !l.stopped

/-- Is this rune one of the whitespace cases of `Next`'s switch? -/
def isWS (c : Option Char) : Bool :=
  match c with
  | none => false
  | some c => c = ' ' || c = '\t' || c = '\n' || c = '\r'

/-- The whitespace-skipping iterations of `Next`'s loop (the cases that
`continue`).  The fuel passed by `lexNext` covers any position within the
input, since each step advances the position. -/
def skipWS : Nat → Lexer → Lexer
  | 0, l => l
  | fuel + 1, l => if isWS l.current then skipWS fuel (consume l) else l

/-- The loop of the lexical rule `name()`: accumulate consecutive letters.
Returns the accumulated text together with the state after the run. -/
def nameLoop : Nat → Lexer → String → String × Lexer
  | 0, l, acc => (acc, l)
  | fuel + 1, l, acc =>
    match l.current with
    | some c =>
      if isLetter c then nameLoop fuel (consume l) (acc.push c) else (acc, l)
    | none => (acc, l)

/-- A lexical error: `fmt.Errorf("non-letter character: %c", lex.current)`. -/
structure LexErr where
  char : Char
deriving DecidableEq, Repr

/-- The non-whitespace dispatch of `Next`'s switch, reached once the loop's
whitespace cases are done: at the eof sentinel set `stopped` and return the
`EndOfInput` token; on a rune outside every token's alphabet set `stopped`
and fail. -/
def lexDispatch (l : Lexer) : Except LexErr Token × Lexer :=
  match l.current with
  | none => (.ok ⟨.EOF, ""⟩, { l with stopped := true })
  | some c =>
    if c = ',' then (.ok ⟨.Comma, ","⟩, consume l)
    else if c = '[' then (.ok ⟨.LBrack, "["⟩, consume l)
    else if c = ']' then (.ok ⟨.RBrack, "]"⟩, consume l)
    else if c = '=' then (.ok ⟨.Equals, "="⟩, consume l)
    else if isLetter c then
      let (text, l) := nameLoop (l.input.length + 2) l ""
      (.ok ⟨.Name, text⟩, l)
    else (.error ⟨c⟩, { l with stopped := true })

/-- `Lexer.Next` of `src/chapter3/main.go`: the loop consumes whitespace
until a dispatching rune (or the eof sentinel) is current, then the switch
decides. -/
def lexNext (l : Lexer) : Except LexErr Token × Lexer :=
  lexDispatch (skipWS (l.input.length + 2) l)

/-- The token sequence a lexer state yields: entry `n` is the result of the
`(n+1)`-st call to `Next`. -/
def lexStream (l : Lexer) : Nat → Except LexErr Token
  | 0 => (lexNext l).1
  | n + 1 => lexStream (lexNext l).2 n

/-- The errors a `BacktrackingParser` method can panic with
(`src/chapter3/parser.go`), plus the fuel marker of this embedding:
`lexical` wraps the lexer error panicked in `fill`; `matchErr` is the
`SyntaxError` of `match`; `elementErr` the one of `element`; `statErr` the
one of `stat`'s final branch; `fuel` only flags exhausted fuel. -/
inductive PErr where
  | lexical (e : LexErr)
  | matchErr (expected found : TokenType)
  | elementErr (found : TokenType)
  | statErr (found : TokenType)
  | fuel
deriving DecidableEq, Repr

/-- `BacktrackingParser` state (`src/chapter3/parser.go`): the lexer it
pulls from, the lookahead buffer, the cursor into it, and the marker stack.
Go pushes markers at the slice's end and pops from the end; here the head of
`markers` is the top of that stack. -/
structure BParser where
  lexer : Lexer
  lookahead : List Token
  pos : Nat
  markers : List Nat
deriving DecidableEq, Repr

/-- Sequencing of two panicking steps: stop at the first error, carrying the
state mutated so far (a recovering caller sees those mutations). -/
def seq (r : Except PErr Unit × BParser) (k : BParser → Except PErr Unit × BParser) :
    Except PErr Unit × BParser :=
  match r with
  | (.error e, p) => (.error e, p)
  | (.ok _, p) => k p

/-- `BacktrackingParser.fill`: append `n` tokens from the lexer, panicking
on a lexer error (tokens already appended stay in the buffer). -/
def fill : Nat → BParser → Except PErr Unit × BParser
  | 0, p => (.ok (), p)
  | n + 1, p =>
    match lexNext p.lexer with
    | (.error e, l) => (.error (.lexical e), { p with lexer := l })
    | (.ok tok, l) => fill n { p with lexer := l, lookahead := p.lookahead ++ [tok] }

/-- `BacktrackingParser.sync`: grow the buffer so that index `pos + i - 1`
exists.  Go compares `p.pos+i-1 > len(p.lookahead)-1` over machine ints and
fills `p.pos+i-1-(len(p.lookahead)-1)` tokens; for the `i ≥ 1` used at every
call site this is the condition `pos + i > len` and the count
`pos + i - len` written here. -/
def sync (i : Nat) (p : BParser) : Except PErr Unit × BParser :=
  if p.pos + i > p.lookahead.length then fill (p.pos + i - p.lookahead.length) p
  else (.ok (), p)

/-- `BacktrackingParser.peek`: sync, then read the buffer at
`pos + n - 1`; the Go code resets an index equal to the buffer length to 0
(unreachable after a successful sync), and out-of-range indexing cannot
occur there either, so the default value stands in for Go's bounds panic. -/
def peek (n : Nat) (p : BParser) : Except PErr Token × BParser :=
  match sync n p with
  | (.error e, p) => (.error e, p)
  | (.ok _, p) =>
    let index := p.pos + n - 1
    let index := if index = p.lookahead.length then 0 else index
    (.ok (p.lookahead.getD index default), p)

/-- `BacktrackingParser.isSpeculating`: is the marker stack nonempty. -/
def isSpeculating (p : BParser) : Bool := !p.markers.isEmpty

/-- The state change of `BacktrackingParser.consume` before its final
`sync(1)`: advance the cursor; when not speculating and the advanced cursor
reaches the buffer's end, reset cursor and buffer (the advance touches only
`pos`, so checking `p.pos + 1` against the old state is the same test Go
makes after `p.pos++`). -/
def bconsumeAdvance (p : BParser) : BParser :=
  if !(isSpeculating p) && p.pos + 1 = p.lookahead.length then
    { p with pos := 0, lookahead := [] }
  else { p with pos := p.pos + 1 }

/-- `BacktrackingParser.consume`: advance (resetting the exhausted buffer
outside speculation), then sync one token of lookahead. -/
def bconsume (p : BParser) : Except PErr Unit × BParser :=
  sync 1 (bconsumeAdvance p)

/-- `BacktrackingParser.match` (a Lean keyword, hence `matchTok`): consume a
token of the wanted type or panic with the `SyntaxError` of `match`. -/
def matchTok (typ : TokenType) (p : BParser) : Except PErr Unit × BParser :=
  match peek 1 p with
  | (.error e, p) => (.error e, p)
  | (.ok tok, p) =>
    if tok.type = typ then bconsume p
    else (.error (.matchErr typ tok.type), p)

/-- `BacktrackingParser.mark`: push the current cursor on the marker stack. -/
def mark (p : BParser) : BParser := { p with markers := p.pos :: p.markers }

/-- `BacktrackingParser.release`: pop the top marker and seek back to it.
Go would panic on an empty stack; every call site marks first, so the
empty case (returning the state unchanged) is unreachable. -/
def release (p : BParser) : BParser :=
  match p.markers with
  | [] => p
  | m :: rest => { p with markers := rest, pos := m }

mutual

/-- `BacktrackingParser.list`: `match(LBrack); elements(); match(RBrack)`. -/
def listR : Nat → BParser → Except PErr Unit × BParser
  | 0, p => (.error .fuel, p)
  | f + 1, p =>
    seq (matchTok .LBrack p) fun p =>
    seq (elementsR f p) fun p =>
    matchTok .RBrack p

/-- `BacktrackingParser.elements`: one element, then the comma loop. -/
def elementsR : Nat → BParser → Except PErr Unit × BParser
  | 0, p => (.error .fuel, p)
  | f + 1, p => seq (elementR f p) fun p => elementsLoop f p

/-- The `for p.peek(1).Type == Comma` loop of `elements`. -/
def elementsLoop : Nat → BParser → Except PErr Unit × BParser
  | 0, p => (.error .fuel, p)
  | f + 1, p =>
    match peek 1 p with
    | (.error e, p) => (.error e, p)
    | (.ok tok, p) =>
      if tok.type = .Comma then
        seq (matchTok .Comma p) fun p =>
        seq (elementR f p) fun p =>
        elementsLoop f p
      else (.ok (), p)

/-- `BacktrackingParser.element`: two tokens of lookahead decide between
assignment, bare name, nested list, and the `SyntaxError` of `element`. -/
def elementR : Nat → BParser → Except PErr Unit × BParser
  | 0, p => (.error .fuel, p)
  | f + 1, p =>
    match peek 1 p with
    | (.error e, p) => (.error e, p)
    | (.ok first, p) =>
      match peek 2 p with
      | (.error e, p) => (.error e, p)
      | (.ok second, p) =>
        if first.type = .Name && second.type = .Equals then
          seq (matchTok .Name p) fun p =>
          seq (matchTok .Equals p) fun p =>
          matchTok .Name p
        else if first.type = .Name then matchTok .Name p
        else if first.type = .LBrack && second.type ≠ .EOF then listR f p
        else (.error (.elementErr first.type), p)

end

/-- `BacktrackingParser.assign`: `list '=' list`. -/
def assignR (f : Nat) (p : BParser) : Except PErr Unit × BParser :=
  seq (listR f p) fun p =>
  seq (matchTok .Equals p) fun p =>
  listR f p

/-- The trial parse run by `speculateList`: `p.list(); p.match(EOF)`. -/
def bodyList (f : Nat) (p : BParser) : Except PErr Unit × BParser :=
  seq (listR f p) fun p => matchTok .EOF p

/-- The trial parse run by `speculateAssign`: `p.assign(); p.match(EOF)`. -/
def bodyAssign (f : Nat) (p : BParser) : Except PErr Unit × BParser :=
  seq (assignR f p) fun p => matchTok .EOF p

/-- `BacktrackingParser.speculateList`: mark, run the trial parse, release
(on the success path explicitly, on a panic inside the deferred recover),
and report the outcome as a boolean.  The recover catches every panic; only
this embedding's fuel marker is passed through instead. -/
def speculateListF (f : Nat) (p : BParser) : Except PErr Bool × BParser :=
  match bodyList f (mark p) with
  | (.ok _, p) => (.ok true, release p)
  | (.error .fuel, p) => (.error .fuel, p)
  | (.error _, p) => (.ok false, release p)

/-- `BacktrackingParser.speculateAssign`, exactly like `speculateList` with
the assign trial parse. -/
def speculateAssignF (f : Nat) (p : BParser) : Except PErr Bool × BParser :=
  match bodyAssign f (mark p) with
  | (.ok _, p) => (.ok true, release p)
  | (.error .fuel, p) => (.error .fuel, p)
  | (.error _, p) => (.ok false, release p)

/-- `BacktrackingParser.stat`: speculate `list EOF`, else speculate
`assign EOF`, re-running the committed alternative non-speculatively;
if neither matches, panic with the `SyntaxError` naming `peek(1)`. -/
def statR (f : Nat) (p : BParser) : Except PErr Unit × BParser :=
  match speculateListF f p with
  | (.error e, p) => (.error e, p)
  | (.ok true, p) => seq (listR f p) fun p => matchTok .EOF p
  | (.ok false, p) =>
    match speculateAssignF f p with
    | (.error e, p) => (.error e, p)
    | (.ok true, p) => seq (assignR f p) fun p => matchTok .EOF p
    | (.ok false, p) =>
      match peek 1 p with
      | (.error e, p) => (.error e, p)
      | (.ok tok, p) => (.error (.statErr tok.type), p)

/-- `NewBacktrackingParser`: zero-valued parser over the lexer, then
`sync(1)` (whose panic, on a leading lexical error, escapes the
constructor). -/
def newBacktrackingParser (l : Lexer) : Except PErr Unit × BParser :=
  sync 1 { lexer := l, lookahead := [], pos := 0, markers := [] }

end chapter3

namespace chapter2

/-- The lexer of `src/chapter2/lexer.go`: like chapter 3's but with no
`stopped` flag, and its `Next` has no `'='` case. -/
structure Lexer where
  input : List Char
  p : Nat
  cur : Option Char
deriving DecidableEq, Repr

/-- `NewLexer` of `src/chapter2/lexer.go`. -/
def newLexer (s : String) : Lexer :=
  if s = "" then { input := [], p := 0, cur := none }
  else { input := s.toList, p := 0, cur := s.toList.head? }

/-- `Lexer.consume` of `src/chapter2/lexer.go`. -/
def consume (l : Lexer) : Lexer :=
  let p := l.p + 1
  if p ≥ l.input.length then { l with p := p, cur := none }
  else { l with p := p, cur := l.input.get? p }

/-- Error values of the chapter-2 package, which the parsers record rather
than raise: the lexer's `invalid character` error, `match`'s and `element`'s
`SyntaxError`s, plus this embedding's fuel marker. -/
inductive C2Err where
  | invalidChar (c : Char)
  | matchErr (expected found : TokenType)
  | elemErr (found : Token)
  | elemTypeErr (found : TokenType)
  | fuel
deriving DecidableEq, Repr

/-- The whitespace-skipping iterations of chapter 2's `Next` loop. -/
def skipWS : Nat → Lexer → Lexer
  | 0, l => l
  | fuel + 1, l =>
    match l.cur with
    | some c =>
      if c = ' ' || c = '\t' || c = '\n' || c = '\r' then skipWS fuel (consume l) else l
    | none => l

/-- The letter-accumulating loop of chapter 2's `name()`. -/
def nameLoop : Nat → Lexer → String → String × Lexer
  | 0, l, acc => (acc, l)
  | fuel + 1, l, acc =>
    match l.cur with
    | some c => if isLetter c then nameLoop fuel (consume l) (acc.push c) else (acc, l)
    | none => (acc, l)

/-- The non-whitespace dispatch of chapter 2's `Next` switch.  Go returns
the pair `(Token, error)`; on failure the token is the zero value
`Token\x7b\x7d` (whose type is `EOF`) — the parsers read both components, so
the embedding keeps the pair.  Note chapter 2's switch has no `'='` case
and no `stopped` flag, and at the eof sentinel the state is unchanged. -/
def lexDispatch (l : Lexer) : (Token × Option C2Err) × Lexer :=
  match l.cur with
  | none => ((⟨.EOF, ""⟩, none), l)
  | some c =>
    if c = ',' then ((⟨.Comma, ","⟩, none), consume l)
    else if c = '[' then ((⟨.LBrack, "["⟩, none), consume l)
    else if c = ']' then ((⟨.RBrack, "]"⟩, none), consume l)
    else if isLetter c then
      let (text, l) := nameLoop (l.input.length + 2) l ""
      ((⟨.Name, text⟩, none), l)
    else ((⟨.EOF, ""⟩, some (.invalidChar c)), l)

/-- `Lexer.Next` of `src/chapter2/lexer.go`: whitespace loop, then the
dispatching switch. -/
def lexNext (l : Lexer) : (Token × Option C2Err) × Lexer :=
  lexDispatch (skipWS (l.input.length + 2) l)

/-- The token sequence a chapter-2 lexer state yields. -/
def lexStream (l : Lexer) : Nat → Token × Option C2Err
  | 0 => (lexNext l).1
  | n + 1 => lexStream (lexNext l).2 n

/-- The LL(1) `Parser` state of `src/chapter2/parser.go`: token source, a
single lookahead token, and the recorded (not raised) last error. -/
structure PState where
  lexer : Lexer
  lookahead : Token
  err : Option C2Err
deriving DecidableEq, Repr

/-- `NewParser`: `p.lookahead, p.err = p.input.Next()`. -/
def newParser (l : Lexer) : PState :=
  { lexer := (lexNext l).2, lookahead := (lexNext l).fst.fst, err := (lexNext l).fst.snd }

/-- `Parser.consume`: pull the next token; if it is `EOF` return without
touching `lookahead` or `err` (so an error paired with the zero-value token
is silently dropped); otherwise assign both `lookahead` and `err`. -/
def pconsume (s : PState) : PState :=
  if (lexNext s.lexer).fst.fst.type = .EOF then { s with lexer := (lexNext s.lexer).2 }
  else
    { s with
        lexer := (lexNext s.lexer).2
        lookahead := (lexNext s.lexer).fst.fst
        err := (lexNext s.lexer).fst.snd }

/-- `Parser.match`: consume on a type match, otherwise record the
`SyntaxError` into `err`. -/
def pmatch (typ : TokenType) (s : PState) : PState :=
  if s.lookahead.type = typ then pconsume s
  else { s with err := some (.matchErr typ s.lookahead.type) }

mutual

/-- `Parser.list`. -/
def plist : Nat → PState → PState
  | 0, s => { s with err := some .fuel }
  | f + 1, s => pmatch .RBrack (pelements f (pmatch .LBrack s))

/-- `Parser.elements`. -/
def pelements : Nat → PState → PState
  | 0, s => { s with err := some .fuel }
  | f + 1, s => pelementsLoop f (pelement f s)

/-- The `for p.lookahead.Type == Comma` loop of `Parser.elements`. -/
def pelementsLoop : Nat → PState → PState
  | 0, s => { s with err := some .fuel }
  | f + 1, s =>
    if s.lookahead.type = .Comma then pelementsLoop f (pelement f (pmatch .Comma s))
    else s

/-- `Parser.element`: a name, a sublist, or a recorded `SyntaxError`. -/
def pelement : Nat → PState → PState
  | 0, s => { s with err := some .fuel }
  | f + 1, s =>
    match s.lookahead.type with
    | .Name => pmatch .Name s
    | .LBrack => plist f s
    | _ => { s with err := some (.elemErr s.lookahead) }

end

/-- The `LLkParser` state of `src/chapter2/llkparser.go`: token source, the
circular lookahead buffer of width `k`, the circular fill index, and the
recorded last error. -/
structure LLkState where
  lexer : Lexer
  buf : List Token
  k : Nat
  pos : Nat
  err : Option C2Err
deriving DecidableEq, Repr

/-- `LLkParser.consume`: pull a token into the circular buffer, advance the
fill index modulo `k`, and record the lexer's error only for a non-`EOF`
token (on a lexer failure the token is the `EOF`-typed zero value, so the
error goes unrecorded there too). -/
def llkConsume (s : LLkState) : LLkState :=
  if (lexNext s.lexer).fst.fst.type ≠ .EOF then
    { s with
        lexer := (lexNext s.lexer).2
        buf := s.buf.set s.pos (lexNext s.lexer).fst.fst
        pos := (s.pos + 1) % s.k
        err := (lexNext s.lexer).fst.snd }
  else
    { s with
        lexer := (lexNext s.lexer).2
        buf := s.buf.set s.pos (lexNext s.lexer).fst.fst
        pos := (s.pos + 1) % s.k }

/-- `NewLLkParser`: a buffer of `k` zero-value tokens, filled by `k` calls
to `consume`. -/
def newLLkParser (l : Lexer) (k : Nat) : LLkState :=
  Nat.rec { lexer := l, buf := List.replicate k default, k := k, pos := 0, err := none }
    (fun _ s => llkConsume s) k

/-- `LLkParser.lookahead`: `p.buf[(p.pos+n-1) % p.k]`, a pure read of the
buffer (the default value stands in for Go's bounds panic, unreachable when
the buffer has its constructed length `k > 0`). -/
def llkLookahead (n : Nat) (s : LLkState) : Token :=
  s.buf.getD ((s.pos + n - 1) % s.k) default

/-- `LLkParser.match`. -/
def llkMatch (typ : TokenType) (s : LLkState) : LLkState :=
  if (llkLookahead 1 s).type = typ then llkConsume s
  else { s with err := some (.matchErr typ (llkLookahead 1 s).type) }

mutual

/-- `LLkParser.list`. -/
def llkList : Nat → LLkState → LLkState
  | 0, s => { s with err := some .fuel }
  | f + 1, s => llkMatch .RBrack (llkElements f (llkMatch .LBrack s))

/-- `LLkParser.elements`. -/
def llkElements : Nat → LLkState → LLkState
  | 0, s => { s with err := some .fuel }
  | f + 1, s => llkElementsLoop f (llkElement f s)

/-- The comma loop of `LLkParser.elements`. -/
def llkElementsLoop : Nat → LLkState → LLkState
  | 0, s => { s with err := some .fuel }
  | f + 1, s =>
    if (llkLookahead 1 s).type = .Comma then
      llkElementsLoop f (llkElement f (llkMatch .Comma s))
    else s

/-- `LLkParser.element`: two tokens of lookahead decide assignment versus
bare name versus sublist; otherwise the `SyntaxError` is recorded. -/
def llkElement : Nat → LLkState → LLkState
  | 0, s => { s with err := some .fuel }
  | f + 1, s =>
    let first := llkLookahead 1 s
    let second := llkLookahead 2 s
    if first.type = .Name && second.type = .Equals then
      llkMatch .Name (llkMatch .Equals (llkMatch .Name s))
    else if first.type = .Name then llkMatch .Name s
    else if first.type = .LBrack then llkList f s
    else { s with err := some (.elemTypeErr first.type) }

end

end chapter2

namespace grammar

/-!
The external grammar contract, written out from the spec's EBNF (spec §6),
which coincides with the grammar comments at the top of
`src/chapter3/parser.go`:
statement := list EndOfInput | assign EndOfInput; assign := list '=' list;
list := '[' elements ']'; elements := element (',' element)*;
element := Name '=' Name | Name | list; Name := letter+ with
letter = [a-zA-Z]; whitespace insignificant between tokens.
These definitions are the spec side of the comparison; everything above is
the code side.
-/

/-- Spec-level tokenization of a character sequence: skip whitespace, map
the four punctuation marks, take maximal `[a-zA-Z]` runs as `Name`s, and
reject any other character.  Fuel (one per consumed character) exceeds the
input length at the wrapper below. -/
def specLexGo : Nat → List Char → Option (List Token)
  | 0, _ => none
  | _, [] => some []
  | f + 1, c :: rest =>
    if c = ' ' || c = '\t' || c = '\n' || c = '\r' then specLexGo f rest
    else if c = ',' then (specLexGo f rest).map (⟨.Comma, ","⟩ :: ·)
    else if c = '[' then (specLexGo f rest).map (⟨.LBrack, "["⟩ :: ·)
    else if c = ']' then (specLexGo f rest).map (⟨.RBrack, "]"⟩ :: ·)
    else if c = '=' then (specLexGo f rest).map (⟨.Equals, "="⟩ :: ·)
    else if specIsLetter c then
      let run := (c :: rest).takeWhile specIsLetter
      (specLexGo f ((c :: rest).dropWhile specIsLetter)).map (⟨.Name, String.mk run⟩ :: ·)
    else none

/-- Spec-level tokenization of an input string. -/
def specLex (s : String) : Option (List Token) :=
  specLexGo (s.length + 1) s.toList

mutual

/-- `list := '[' elements ']'` over token sequences. -/
inductive GList : List Token → Prop where
  | mk {ts : List Token} :
      GElements ts → GList (⟨.LBrack, "["⟩ :: ts ++ [⟨.RBrack, "]"⟩])

/-- `elements := element (',' element)*`. -/
inductive GElements : List Token → Prop where
  | single {ts : List Token} : GElement ts → GElements ts
  | cons {ts rest : List Token} :
      GElement ts → GElements rest → GElements (ts ++ ⟨.Comma, ","⟩ :: rest)

/-- `element := Name '=' Name | Name | list`, with `Name` a nonempty run of
`[a-zA-Z]` letters. -/
inductive GElement : List Token → Prop where
  | name (s : String) : s ≠ "" → (∀ c ∈ s.toList, specIsLetter c) →
      GElement [⟨.Name, s⟩]
  | assign (a b : String) : a ≠ "" → (∀ c ∈ a.toList, specIsLetter c) →
      b ≠ "" → (∀ c ∈ b.toList, specIsLetter c) →
      GElement [⟨.Name, a⟩, ⟨.Equals, "="⟩, ⟨.Name, b⟩]
  | list {ts : List Token} : GList ts → GElement ts

end

/-- `assign := list '=' list`. -/
def GAssign (ts : List Token) : Prop :=
  ∃ xs ys, GList xs ∧ GList ys ∧ ts = xs ++ ⟨.Equals, "="⟩ :: ys

/-- `statement := list EndOfInput | assign EndOfInput`: the token sequence
before the terminating `EndOfInput` is a list or an assign. -/
def GStatement (ts : List Token) : Prop := GList ts ∨ GAssign ts

/-- An input string matches the grammar: it tokenizes under the spec's
lexical rules and the token sequence derives from `statement`. -/
def matchesGrammar (s : String) : Prop :=
  ∃ ts, specLex s = some ts ∧ GStatement ts

end grammar

namespace chapter3

/-- The full token sequence a parser state can observe, buffered history
included: entry `i` is the buffered token at index `i` when the buffer
reaches that far, and otherwise the `(i - |buffer|)`-th token the lexer will
yield, with its error lifted to the parser's panic value.  `fill` extends
the buffer by exactly the tokens the lexer yields, so every parser
operation that does not truncate the buffer preserves this sequence. -/
def streamOf (p : BParser) (i : Nat) : Except PErr Token :=
  if i < p.lookahead.length then .ok (p.lookahead.getD i default)
  else
    match lexStream p.lexer (i - p.lookahead.length) with
    | .ok t => .ok t
    | .error e => .error (.lexical e)

/-- A parser step preserves the marker stack, and — whenever the marker
stack is nonempty, i.e. inside a speculation, where `consume` never
truncates the buffer — also the observable token sequence. -/
def MPres (step : BParser → Except PErr Unit × BParser) : Prop :=
  ∀ p, (step p).2.markers = p.markers ∧
    (p.markers ≠ [] → ∀ i, streamOf (step p).2 i = streamOf p i)

/-- Is this panic value the `SyntaxError` raised by `stat`'s final branch?
The grammar-rule methods never construct it. -/
def isStatErr : PErr → Bool
  | .statErr _ => true
  | _ => false

/-- A parser step whose panics are never `stat`'s decision-point
`SyntaxError`. -/
def NoStat (step : BParser → Except PErr Unit × BParser) : Prop :=
  ∀ p e, (step p).1 = .error e → isStatErr e = false

end chapter3

namespace chapter3

theorem skipWS_of_not_ws (fuel : Nat) (l : Lexer) (h : isWS l.current = false) :
    skipWS fuel l = l := by
  cases fuel with
  | zero => rfl
  | succ f => simp [skipWS, h]

theorem consume_input (l : Lexer) : (consume l).input = l.input := by
  unfold consume
  dsimp only
  split <;> rfl

theorem consume_pos (l : Lexer) : (consume l).pos = l.pos + 1 := by
  unfold consume
  dsimp only
  split <;> rfl

theorem consume_current_none (l : Lexer) (h : l.input.length ≤ l.pos + 1) :
    (consume l).current = none := by
  unfold consume
  dsimp only
  rw [if_pos (by omega)]

theorem skipWS_not_ws (fuel : Nat) :
    ∀ l : Lexer, 2 ≤ fuel → l.input.length + 2 - l.pos ≤ fuel →
      isWS (skipWS fuel l).current = false := by
  induction fuel with
  | zero => intro l h _; omega
  | succ f ih =>
    intro l _ hle
    by_cases hws : isWS l.current
    · rw [show skipWS (f + 1) l = skipWS f (consume l) by simp [skipWS, hws]]
      by_cases hend : l.input.length ≤ l.pos + 1
      · have hnone : (consume l).current = none := consume_current_none l hend
        rw [skipWS_of_not_ws f _ (by simp [isWS, hnone])]
        simp [isWS, hnone]
      · have hws' : l.pos < l.input.length := by omega
        apply ih
        · omega
        · rw [consume_input, consume_pos]; omega
    · rw [skipWS_of_not_ws _ _ (by simpa using hws)]
      simpa using hws

theorem skipWS_full_not_ws (l : Lexer) :
    isWS (skipWS (l.input.length + 2) l).current = false :=
  skipWS_not_ws _ l (by omega) (by omega)

theorem lexDispatch_error (l l' : Lexer) (e : LexErr)
    (h : lexDispatch l = (.error e, l')) :
    l.current = some e.char ∧ l'.current = some e.char ∧ l'.stopped = true ∧
      e.char ≠ ',' ∧ e.char ≠ '[' ∧ e.char ≠ ']' ∧ e.char ≠ '=' ∧
      isLetter e.char = false := by
  unfold lexDispatch at h
  cases hc : l.current with
  | none => rw [hc] at h; simp at h
  | some c =>
    rw [hc] at h
    dsimp only at h
    by_cases h1 : c = ','
    · rw [if_pos h1] at h; simp at h
    rw [if_neg h1] at h
    by_cases h2 : c = '['
    · rw [if_pos h2] at h; simp at h
    rw [if_neg h2] at h
    by_cases h3 : c = ']'
    · rw [if_pos h3] at h; simp at h
    rw [if_neg h3] at h
    by_cases h4 : c = '='
    · rw [if_pos h4] at h; simp at h
    rw [if_neg h4] at h
    by_cases h5 : isLetter c
    · rw [if_pos h5] at h; simp at h
    rw [if_neg h5] at h
    obtain ⟨he, hl⟩ := Prod.mk.inj h
    obtain rfl : e = ⟨c⟩ := by injection he with he; exact he.symm
    subst hl
    refine ⟨?_, ?_, ?_, h1, h2, h3, h4, ?_⟩ <;> simp_all

theorem lexNext_error (l l' : Lexer) (e : LexErr) (h : lexNext l = (.error e, l')) :
    l'.current = some e.char ∧ l'.stopped = true ∧ isWS l'.current = false ∧
      e.char ≠ ',' ∧ e.char ≠ '[' ∧ e.char ≠ ']' ∧ e.char ≠ '=' ∧
      isLetter e.char = false := by
  obtain ⟨h0, h1, h2, h3, h4, h5, h6, h7⟩ := lexDispatch_error _ _ _ h
  refine ⟨h1, h2, ?_, h3, h4, h5, h6, h7⟩
  have hws := skipWS_full_not_ws l
  rw [h1, ← h0]
  exact hws

/-- Calling `Next` again on a lexer state that just produced a lexical
error reproduces the same error and leaves the state fixed: the offending
rune is still current, so the loop takes the same default branch. -/
theorem lexNext_error_idem (l l' : Lexer) (e : LexErr)
    (h : lexNext l = (.error e, l')) : lexNext l' = (.error e, l') := by
  obtain ⟨h1, h2, h3, h4, h5, h6, h7, h8⟩ := lexNext_error l l' e h
  unfold lexNext
  rw [skipWS_of_not_ws _ _ h3]
  unfold lexDispatch
  rw [h1]
  dsimp only
  rw [if_neg h4, if_neg h5, if_neg h6, if_neg h7, if_neg (by simp [h8])]
  obtain ⟨inp, pos, cur, st⟩ := l'
  obtain rfl : st = true := h2
  obtain ⟨ec⟩ := e
  simp_all

theorem lexStream_error_state (l l' : Lexer) (e : LexErr)
    (h : lexNext l = (.error e, l')) : ∀ n, lexStream l' n = .error e := by
  intro n
  induction n generalizing l with
  | zero => rw [lexStream, lexNext_error_idem l l' e h]
  | succ n ih =>
    rw [lexStream, lexNext_error_idem l l' e h]
    exact ih l' (lexNext_error_idem l l' e h)

/-- Once the stream shows a lexical error, every later entry is that same
error: the lexer's error state is a fixpoint of `Next`. -/
theorem lexStream_error_forever (l : Lexer) (n : Nat) (e : LexErr)
    (h : lexStream l n = .error e) : ∀ m, n ≤ m → lexStream l m = .error e := by
  induction n generalizing l with
  | zero =>
    intro m _
    rw [lexStream] at h
    have hpair : lexNext l = (.error e, (lexNext l).2) := by
      rw [← h]
    cases m with
    | zero => exact h
    | succ m =>
      rw [lexStream]
      exact lexStream_error_state l _ e hpair m
  | succ n ih =>
    intro m hm
    rw [lexStream] at h
    cases m with
    | zero => omega
    | succ m =>
      rw [lexStream]
      exact ih _ h m (by omega)

theorem lexDispatch_ok_eof (l l' : Lexer) (t : Token)
    (h : lexDispatch l = (.ok t, l')) (ht : t.type = .EOF) :
    l.current = none ∧ t = ⟨.EOF, ""⟩ ∧ l' = { l with stopped := true } := by
  unfold lexDispatch at h
  cases hc : l.current with
  | none =>
    rw [hc] at h
    dsimp only at h
    obtain ⟨he, hl⟩ := Prod.mk.inj h
    refine ⟨rfl, ?_, ?_⟩
    · injection he with he; exact he.symm
    · rw [← hl]
  | some c =>
    rw [hc] at h
    dsimp only at h
    by_cases h1 : c = ','
    · rw [if_pos h1] at h
      obtain ⟨he, _⟩ := Prod.mk.inj h
      injection he with he
      rw [← he] at ht
      simp at ht
    rw [if_neg h1] at h
    by_cases h2 : c = '['
    · rw [if_pos h2] at h
      obtain ⟨he, _⟩ := Prod.mk.inj h
      injection he with he
      rw [← he] at ht
      simp at ht
    rw [if_neg h2] at h
    by_cases h3 : c = ']'
    · rw [if_pos h3] at h
      obtain ⟨he, _⟩ := Prod.mk.inj h
      injection he with he
      rw [← he] at ht
      simp at ht
    rw [if_neg h3] at h
    by_cases h4 : c = '='
    · rw [if_pos h4] at h
      obtain ⟨he, _⟩ := Prod.mk.inj h
      injection he with he
      rw [← he] at ht
      simp at ht
    rw [if_neg h4] at h
    by_cases h5 : isLetter c
    · rw [if_pos h5] at h
      obtain ⟨he, _⟩ := Prod.mk.inj h
      injection he with he
      rw [← he] at ht
      simp at ht
    rw [if_neg h5] at h
    simp at h

theorem lexNext_at_none (l : Lexer) (h : l.current = none) :
    lexNext l = (.ok ⟨.EOF, ""⟩, { l with stopped := true }) := by
  unfold lexNext
  rw [skipWS_of_not_ws _ _ (by simp [isWS, h])]
  unfold lexDispatch
  rw [h]

/-- At the eof sentinel, every call to `Next` keeps producing the
`EndOfInput` token with no error. -/
theorem lexStream_at_none (l : Lexer) (h : l.current = none) (n : Nat) :
    lexStream l n = .ok ⟨.EOF, ""⟩ := by
  induction n generalizing l with
  | zero => rw [lexStream, lexNext_at_none l h]
  | succ n ih =>
    rw [lexStream, lexNext_at_none l h]
    exact ih _ h

/-- A successful `EndOfInput` return happens only at the eof sentinel, and
the resulting state still sits at the sentinel. -/
theorem lexNext_ok_eof (l l' : Lexer) (t : Token)
    (h : lexNext l = (.ok t, l')) (ht : t.type = .EOF) :
    t = ⟨.EOF, ""⟩ ∧ l'.current = none := by
  unfold lexNext at h
  obtain ⟨hc, hts, hl⟩ := lexDispatch_ok_eof _ _ _ h ht
  subst hl
  exact ⟨hts, hc⟩

end chapter3

namespace chapter2

theorem skipWS_at_none (fuel : Nat) (l : Lexer) (h : l.cur = none) :
    skipWS fuel l = l := by
  cases fuel with
  | zero => rfl
  | succ f => unfold skipWS; rw [h]

theorem lexNext_at_eof_c2 (l : Lexer) (h : l.cur = none) :
    lexNext l = ((⟨.EOF, ""⟩, none), l) := by
  unfold lexNext
  rw [skipWS_at_none _ _ h]
  unfold lexDispatch
  rw [h]

/-- At the eof sentinel, every further call to chapter 2's `Next` keeps
producing the `EndOfInput` token with a nil error, without touching the
state. -/
theorem lexStream_at_eof_c2 (l : Lexer) (h : l.cur = none) (n : Nat) :
    lexStream l n = (⟨.EOF, ""⟩, none) := by
  induction n generalizing l with
  | zero => rw [lexStream, lexNext_at_eof_c2 l h]
  | succ n ih =>
    rw [lexStream, lexNext_at_eof_c2 l h]
    exact ih l h

theorem lexDispatch_ok_eof_c2 (l l' : Lexer) (t : Token)
    (h : lexDispatch l = ((t, none), l')) (ht : t.type = .EOF) :
    l.cur = none ∧ t = ⟨.EOF, ""⟩ ∧ l' = l := by
  unfold lexDispatch at h
  cases hc : l.cur with
  | none =>
    rw [hc] at h
    dsimp only at h
    obtain ⟨hp, hl⟩ := Prod.mk.inj h
    obtain ⟨htk, _⟩ := Prod.mk.inj hp
    exact ⟨rfl, htk.symm, hl.symm⟩
  | some c =>
    rw [hc] at h
    dsimp only at h
    by_cases h1 : c = ','
    · rw [if_pos h1] at h
      obtain ⟨hp, _⟩ := Prod.mk.inj h
      obtain ⟨htk, _⟩ := Prod.mk.inj hp
      rw [← htk] at ht
      simp at ht
    rw [if_neg h1] at h
    by_cases h2 : c = '['
    · rw [if_pos h2] at h
      obtain ⟨hp, _⟩ := Prod.mk.inj h
      obtain ⟨htk, _⟩ := Prod.mk.inj hp
      rw [← htk] at ht
      simp at ht
    rw [if_neg h2] at h
    by_cases h3 : c = ']'
    · rw [if_pos h3] at h
      obtain ⟨hp, _⟩ := Prod.mk.inj h
      obtain ⟨htk, _⟩ := Prod.mk.inj hp
      rw [← htk] at ht
      simp at ht
    rw [if_neg h3] at h
    by_cases h4 : isLetter c
    · rw [if_pos h4] at h
      obtain ⟨hp, _⟩ := Prod.mk.inj h
      obtain ⟨htk, _⟩ := Prod.mk.inj hp
      rw [← htk] at ht
      simp at ht
    rw [if_neg h4] at h
    obtain ⟨hp, _⟩ := Prod.mk.inj h
    obtain ⟨_, hnone⟩ := Prod.mk.inj hp
    simp at hnone

/-- A successful `EndOfInput` return from chapter 2's `Next` happens only
at the eof sentinel, with the state unchanged past the whitespace skips. -/
theorem lexNext_ok_eof_c2 (l l' : Lexer) (t : Token)
    (h : lexNext l = ((t, none), l')) (ht : t.type = .EOF) :
    t = ⟨.EOF, ""⟩ ∧ l'.cur = none := by
  unfold lexNext at h
  obtain ⟨hc, hts, hl⟩ := lexDispatch_ok_eof_c2 _ _ _ h ht
  subst hl
  exact ⟨hts, hc⟩

end chapter2

/-- C8: once `Lexer.Next` has returned the `EndOfInput` token (with no
error), every further call returns `EndOfInput` again with no error — for
the chapter-3 lexer (whose separate `Scan` predicate is the pure read
`scan l = !l.stopped` of the state, so polling it between calls cannot
change any `Next` result) and for the chapter-2 lexer alike. -/
theorem lexer_eof_idempotent :
    (∀ (l l' : chapter3.Lexer) (t : Token), chapter3.lexNext l = (.ok t, l') →
      t.type = .EOF → ∀ n, chapter3.lexStream l' n = .ok ⟨.EOF, ""⟩) ∧
    (∀ (l l' : chapter2.Lexer) (t : Token), chapter2.lexNext l = ((t, none), l') →
      t.type = .EOF → ∀ n, chapter2.lexStream l' n = (⟨.EOF, ""⟩, none)) := by
  constructor
  · intro l l' t h ht n
    obtain ⟨_, hcur⟩ := chapter3.lexNext_ok_eof l l' t h ht
    exact chapter3.lexStream_at_none l' hcur n
  · intro l l' t h ht n
    obtain ⟨_, hcur⟩ := chapter2.lexNext_ok_eof_c2 l l' t h ht
    exact chapter2.lexStream_at_eof_c2 l' hcur n

/-- C8 witness: the empty input ends immediately; after the first
`EndOfInput` both lexers keep producing `EndOfInput` with no error. -/
theorem lexer_eof_idempotent_witness :
    chapter3.lexStream (chapter3.lexNext (chapter3.newLexer "")).2 7 = .ok ⟨.EOF, ""⟩ ∧
    chapter2.lexStream (chapter2.lexNext (chapter2.newLexer "")).2 7 = (⟨.EOF, ""⟩, none) :=
  ⟨lexer_eof_idempotent.1 (chapter3.newLexer "") _ ⟨.EOF, ""⟩ (by rfl) (by rfl) 7,
   lexer_eof_idempotent.2 (chapter2.newLexer "") _ ⟨.EOF, ""⟩ (by rfl) (by rfl) 7⟩

/-- C5: the code's `isLetter` excludes lowercase `'z'` (`r < 'z'` instead
of `r <= 'z'`), so `'z'`, a letter of the grammar's `[a-zA-Z]` alphabet,
never joins a `Name` and instead makes both lexers fail with their
invalid-character error — against the spec and the grammar comments in the
sources themselves. -/
theorem isLetter_z_excluded :
    isLetter 'z' = false ∧ specIsLetter 'z' = true ∧ isLetter 'y' = true ∧
    (chapter3.lexNext (chapter3.newLexer "z")).1 = .error ⟨'z'⟩ ∧
    (chapter2.lexNext (chapter2.newLexer "z")).1 = (⟨.EOF, ""⟩, some (.invalidChar 'z')) ∧
    (chapter2.lexNext (chapter2.newLexer "az")).1 = (⟨.Name, "a"⟩, none) :=
  ⟨by decide, by decide, by decide, by rfl, by rfl, by rfl⟩

/-- C10: `LLkParser.lookahead n` reads `buf[(pos + n - 1) % k]`, a pure
read of the circular buffer — for `n > k` the index silently wraps around,
giving `lookahead n = lookahead ((n - 1) % k + 1)`, and no token is pulled
from the lexer (the result ignores the lexer component entirely). -/
theorem llk_lookahead_wraps (s : chapter2.LLkState) (n : Nat) (h1 : 1 ≤ n)
    (_hk : 0 < s.k) :
    chapter2.llkLookahead n s = s.buf.getD ((s.pos + n - 1) % s.k) default ∧
    chapter2.llkLookahead n s = chapter2.llkLookahead ((n - 1) % s.k + 1) s ∧
    ∀ l : chapter2.Lexer,
      chapter2.llkLookahead n { s with lexer := l } = chapter2.llkLookahead n s := by
  refine ⟨rfl, ?_, fun l => rfl⟩
  unfold chapter2.llkLookahead
  have h2 : s.pos + n - 1 = s.pos + (n - 1) := by omega
  have h3 : s.pos + ((n - 1) % s.k + 1) - 1 = s.pos + (n - 1) % s.k := by omega
  rw [h2, h3, Nat.add_mod, Nat.add_mod s.pos ((n - 1) % s.k), Nat.mod_mod_of_dvd _ dvd_rfl]

/-- C10 witness: with width 2, `lookahead 3` wraps to `lookahead 1`. -/
theorem llk_lookahead_wraps_witness :
    chapter2.llkLookahead 3 (chapter2.newLLkParser (chapter2.newLexer "[a]") 2) =
      chapter2.llkLookahead
        ((3 - 1) % (chapter2.newLLkParser (chapter2.newLexer "[a]") 2).k + 1)
        (chapter2.newLLkParser (chapter2.newLexer "[a]") 2) :=
  (llk_lookahead_wraps (chapter2.newLLkParser (chapter2.newLexer "[a]") 2) 3
    (by decide) (by decide)).2.1

namespace chapter3

theorem streamOf_lt (p : BParser) (i : Nat) (h : i < p.lookahead.length) :
    streamOf p i = .ok (p.lookahead.getD i default) := by
  unfold streamOf
  rw [if_pos h]

/-- Appending the token the lexer yields next leaves the observable token
sequence unchanged. -/
theorem streamOf_append_ok (p : BParser) (tok : Token) (l : Lexer)
    (h : lexNext p.lexer = (.ok tok, l)) (i : Nat) :
    streamOf { p with lexer := l, lookahead := p.lookahead ++ [tok] } i =
      streamOf p i := by
  have h1 : (lexNext p.lexer).1 = .ok tok := by rw [h]
  have h2 : (lexNext p.lexer).2 = l := by rw [h]
  unfold streamOf
  dsimp only
  rcases Nat.lt_trichotomy i p.lookahead.length with hi | hi | hi
  · rw [if_pos (by simp; omega), if_pos hi, List.getD_append _ _ _ _ hi]
  · subst hi
    rw [if_pos (by simp), if_neg (by omega), Nat.sub_self]
    rw [show lexStream p.lexer 0 = (lexNext p.lexer).1 from rfl, h1]
    rw [List.getD_append_right _ _ _ _ (Nat.le_refl _), Nat.sub_self]
    rfl
  · rw [if_neg (by simp; omega), if_neg (by omega)]
    have h3 : i - p.lookahead.length = (i - (p.lookahead.length + 1)) + 1 := by omega
    rw [h3]
    rw [show lexStream p.lexer ((i - (p.lookahead.length + 1)) + 1) =
          lexStream (lexNext p.lexer).2 (i - (p.lookahead.length + 1)) from rfl, h2]
    simp

/-- A lexer error hit while filling also leaves the observable sequence
unchanged: the error state keeps reproducing the same error. -/
theorem streamOf_error_state (p : BParser) (e : LexErr) (l : Lexer)
    (h : lexNext p.lexer = (.error e, l)) (i : Nat) :
    streamOf { p with lexer := l } i = streamOf p i := by
  unfold streamOf
  dsimp only
  by_cases hi : i < p.lookahead.length
  · rw [if_pos hi, if_pos hi]
  · rw [if_neg hi, if_neg hi]
    have hs : lexStream p.lexer (i - p.lookahead.length) = .error e :=
      lexStream_error_forever p.lexer 0 e (by rw [lexStream, h]) _ (Nat.zero_le _)
    have hs' : lexStream l (i - p.lookahead.length) = .error e :=
      lexStream_error_state p.lexer l e h _
    rw [hs, hs']

/-- `fill` preserves cursor, marker stack, and the observable sequence, on
success and on panic alike. -/
theorem fill_pres (n : Nat) (p : BParser) :
    (fill n p).2.markers = p.markers ∧ (fill n p).2.pos = p.pos ∧
      ∀ i, streamOf (fill n p).2 i = streamOf p i := by
  induction n generalizing p with
  | zero => exact ⟨rfl, rfl, fun i => rfl⟩
  | succ n ih =>
    rw [fill]
    cases hl : lexNext p.lexer with
    | mk r l =>
      cases r with
      | error e => exact ⟨rfl, rfl, fun i => streamOf_error_state p e l hl i⟩
      | ok tok =>
        obtain ⟨m1, m2, m3⟩ := ih { p with lexer := l, lookahead := p.lookahead ++ [tok] }
        exact ⟨m1, m2, fun i => (m3 i).trans (streamOf_append_ok p tok l hl i)⟩

theorem fill_ok_len (n : Nat) (p : BParser) (p' : BParser) (u : Unit)
    (h : fill n p = (.ok u, p')) :
    p'.lookahead.length = p.lookahead.length + n := by
  induction n generalizing p with
  | zero =>
    rw [fill] at h
    obtain ⟨_, h2⟩ := Prod.mk.inj h
    rw [← h2]
    omega
  | succ n ih =>
    rw [fill] at h
    cases hl : lexNext p.lexer with
    | mk r l =>
      rw [hl] at h
      cases r with
      | error e => simp at h
      | ok tok =>
        have := ih { p with lexer := l, lookahead := p.lookahead ++ [tok] } h
        simp at this
        omega

theorem fill_error (n : Nat) (p : BParser) (p' : BParser) (e : PErr)
    (h : fill n p = (.error e, p')) :
    ∃ j, j < n ∧ ∃ e', e = .lexical e' ∧ lexStream p.lexer j = .error e' := by
  induction n generalizing p with
  | zero => rw [fill] at h; simp at h
  | succ n ih =>
    rw [fill] at h
    cases hl : lexNext p.lexer with
    | mk r l =>
      rw [hl] at h
      cases r with
      | error e' =>
        obtain ⟨h1, _⟩ := Prod.mk.inj h
        refine ⟨0, by omega, e', ?_, ?_⟩
        · injection h1 with h1; exact h1.symm
        · rw [lexStream, hl]
      | ok tok =>
        obtain ⟨j, hj, e', he, hs⟩ := ih _ h
        refine ⟨j + 1, by omega, e', he, ?_⟩
        rw [lexStream]
        rw [hl]
        exact hs

/-- Once the observable sequence shows an error, every later entry is that
same error. -/
theorem streamOf_error_forever (p : BParser) (i : Nat) (ε : PErr)
    (h : streamOf p i = .error ε) :
    ∀ j, i ≤ j → streamOf p j = .error ε := by
  intro j hij
  unfold streamOf at h ⊢
  by_cases hi : i < p.lookahead.length
  · rw [if_pos hi] at h; simp at h
  · rw [if_neg hi] at h
    rw [if_neg (by omega)]
    cases hs : lexStream p.lexer (i - p.lookahead.length) with
    | ok t => rw [hs] at h; simp at h
    | error e' =>
      rw [hs] at h
      have : lexStream p.lexer (j - p.lookahead.length) = .error e' :=
        lexStream_error_forever _ _ _ hs _ (by omega)
      rw [this]
      exact h

/-- `sync` preserves cursor, marker stack, and the observable sequence. -/
theorem sync_pres (i : Nat) (p : BParser) :
    (sync i p).2.markers = p.markers ∧ (sync i p).2.pos = p.pos ∧
      ∀ j, streamOf (sync i p).2 j = streamOf p j := by
  unfold sync
  by_cases hc : p.pos + i > p.lookahead.length
  · rw [if_pos hc]
    exact fill_pres _ p
  · rw [if_neg hc]
    exact ⟨rfl, rfl, fun j => rfl⟩

/-- A successful `sync i` guarantees the buffer reaches index
`pos + i - 1`. -/
theorem sync_ok_len (i : Nat) (p p' : BParser) (u : Unit)
    (h : sync i p = (.ok u, p')) : p.pos + i ≤ p'.lookahead.length := by
  unfold sync at h
  by_cases hc : p.pos + i > p.lookahead.length
  · rw [if_pos hc] at h
    have := fill_ok_len _ _ _ _ h
    omega
  · rw [if_neg hc] at h
    obtain ⟨_, h2⟩ := Prod.mk.inj h
    rw [← h2]
    omega

/-- `peek` preserves cursor, marker stack, and the observable sequence. -/
theorem peek_pres (n : Nat) (p : BParser) :
    (peek n p).2.markers = p.markers ∧ (peek n p).2.pos = p.pos ∧
      ∀ j, streamOf (peek n p).2 j = streamOf p j := by
  unfold peek
  have hp := sync_pres n p
  cases hs : sync n p with
  | mk r q =>
    rw [hs] at hp
    cases r with
    | error e => exact hp
    | ok u => exact hp

/-- What `peek n` returns is exactly entry `pos + n - 1` of the observable
token sequence (for the `n ≥ 1` of every call site): the buffered token
when the sync succeeds, and the lexical panic when growing the buffer hits
a lexer error at or before that entry. -/
theorem peek_fst (n : Nat) (p : BParser) (hn : 1 ≤ n) :
    (peek n p).1 = streamOf p (p.pos + n - 1) := by
  unfold peek
  cases hs : sync n p with
  | mk r q =>
    cases r with
    | error e =>
      unfold sync at hs
      by_cases hc : p.pos + n > p.lookahead.length
      · rw [if_pos hc] at hs
        obtain ⟨j, hj, e', he, hstream⟩ := fill_error _ _ _ _ hs
        subst he
        have h1 : streamOf p (p.lookahead.length + j) = .error (.lexical e') := by
          unfold streamOf
          rw [if_neg (by omega),
            show p.lookahead.length + j - p.lookahead.length = j by omega, hstream]
        have h2 := streamOf_error_forever p _ _ h1 (p.pos + n - 1) (by omega)
        rw [h2]
      · rw [if_neg hc] at hs
        simp at hs
    | ok u =>
      have hlen := sync_ok_len n p q u hs
      have hp := sync_pres n p
      rw [hs] at hp
      obtain ⟨hm, hpos, hstr⟩ := hp
      dsimp only
      rw [hpos]
      rw [if_neg (by omega)]
      rw [← hstr (p.pos + n - 1), streamOf_lt q _ (by omega)]

/-- `consume` preserves the marker stack, and inside a speculation (where
the buffer is never truncated) also the observable sequence. -/
theorem bconsume_pres (p : BParser) :
    (bconsume p).2.markers = p.markers ∧
      (p.markers ≠ [] → ∀ j, streamOf (bconsume p).2 j = streamOf p j) := by
  unfold bconsume bconsumeAdvance
  by_cases hc : (!(isSpeculating p) && decide (p.pos + 1 = p.lookahead.length)) = true
  · rw [if_pos hc]
    constructor
    · exact (sync_pres 1 _).1
    · intro hm
      exfalso
      obtain ⟨h1, _⟩ := Bool.and_eq_true_iff.mp hc
      unfold isSpeculating at h1
      simp at h1
      exact hm h1
  · rw [if_neg hc]
    refine ⟨(sync_pres 1 _).1, fun _ j => ?_⟩
    rw [(sync_pres 1 _).2.2 j]
    unfold streamOf
    rfl

/-- `match` preserves the marker stack, and inside a speculation the
observable sequence, on success and panic alike. -/
theorem matchTok_pres (typ : TokenType) (p : BParser) :
    (matchTok typ p).2.markers = p.markers ∧
      (p.markers ≠ [] → ∀ j, streamOf (matchTok typ p).2 j = streamOf p j) := by
  unfold matchTok
  have hp := peek_pres 1 p
  cases hs : peek 1 p with
  | mk r q =>
    rw [hs] at hp
    obtain ⟨hm, _, hstr⟩ := hp
    cases r with
    | error e => exact ⟨hm, fun _ j => hstr j⟩
    | ok tok =>
      dsimp only
      by_cases ht : tok.type = typ
      · rw [if_pos ht]
        have hb := bconsume_pres q
        refine ⟨hb.1.trans hm, fun hmm j => ?_⟩
        rw [hb.2 (by rw [hm]; exact hmm) j, hstr j]
      · rw [if_neg ht]
        exact ⟨hm, fun _ j => hstr j⟩

theorem mpres_matchTok (typ : TokenType) : MPres (matchTok typ) :=
  matchTok_pres typ

theorem seq_ok (u : Unit) (q : BParser) (B : BParser → Except PErr Unit × BParser) :
    seq (.ok u, q) B = B q := rfl

theorem seq_error (e : PErr) (q : BParser) (B : BParser → Except PErr Unit × BParser) :
    seq (.error e, q) B = (.error e, q) := rfl

/-- Sequencing two preserving steps preserves. -/
theorem mpres_seq {A B : BParser → Except PErr Unit × BParser}
    (hA : MPres A) (hB : MPres B) : MPres (fun p => seq (A p) B) := by
  intro p
  have hq := hA p
  dsimp only
  cases hs : A p with
  | mk r q =>
    rw [hs] at hq
    cases r with
    | error e => rw [seq_error]; exact hq
    | ok u =>
      rw [seq_ok]
      have hb := hB q
      refine ⟨hb.1.trans hq.1, fun hm j => ?_⟩
      rw [hb.2 (by rw [hq.1]; exact hm) j, hq.2 hm j]

/-- Every grammar-rule routine preserves the marker stack, and inside a
speculation the observable token sequence — their only state effects are
buffer growth and cursor movement. -/
theorem rules_pres (f : Nat) :
    MPres (listR f) ∧ MPres (elementsR f) ∧ MPres (elementsLoop f) ∧
      MPres (elementR f) := by
  induction f with
  | zero =>
    refine ⟨?_, ?_, ?_, ?_⟩ <;> exact fun p => ⟨rfl, fun _ i => rfl⟩
  | succ f ih =>
    obtain ⟨hl, he, hlp, hel⟩ := ih
    refine ⟨?_, ?_, ?_, ?_⟩
    · exact mpres_seq (mpres_matchTok .LBrack) (mpres_seq he (mpres_matchTok .RBrack))
    · exact mpres_seq hel hlp
    · intro p
      simp only [elementsLoop]
      have hp := peek_pres 1 p
      cases hs : peek 1 p with
      | mk r q =>
        rw [hs] at hp
        obtain ⟨hm, _, hstr⟩ := hp
        cases r with
        | error e => exact ⟨hm, fun _ j => hstr j⟩
        | ok tok =>
          dsimp only
          by_cases ht : tok.type = .Comma
          · rw [if_pos ht]
            have hc := mpres_seq (mpres_matchTok .Comma) (mpres_seq hel hlp) q
            refine ⟨hc.1.trans hm, fun hmm j => ?_⟩
            rw [hc.2 (by rw [hm]; exact hmm) j, hstr j]
          · rw [if_neg ht]
            exact ⟨hm, fun _ j => hstr j⟩
    · intro p
      simp only [elementR]
      have hp := peek_pres 1 p
      cases hs : peek 1 p with
      | mk r q =>
        rw [hs] at hp
        obtain ⟨hm, _, hstr⟩ := hp
        cases r with
        | error e => exact ⟨hm, fun _ j => hstr j⟩
        | ok first =>
          dsimp only
          have hp2 := peek_pres 2 q
          cases hs2 : peek 2 q with
          | mk r2 q2 =>
            rw [hs2] at hp2
            obtain ⟨hm2, _, hstr2⟩ := hp2
            have hmq : q2.markers = p.markers := hm2.trans hm
            have hstrq : p.markers ≠ [] → ∀ j, streamOf q2 j = streamOf p j := by
              intro hmm j
              rw [hstr2 j, hstr j]
            cases r2 with
            | error e => exact ⟨hmq, fun hmm j => hstrq hmm j⟩
            | ok second =>
              dsimp only
              by_cases h1 : first.type = .Name && second.type = .Equals
              · rw [if_pos h1]
                have hc := mpres_seq (mpres_matchTok .Name)
                  (mpres_seq (mpres_matchTok .Equals) (mpres_matchTok .Name)) q2
                refine ⟨hc.1.trans hmq, fun hmm j => ?_⟩
                rw [hc.2 (by rw [hmq]; exact hmm) j, hstrq hmm j]
              · rw [if_neg h1]
                by_cases h2 : first.type = .Name
                · rw [if_pos h2]
                  have hc := matchTok_pres .Name q2
                  refine ⟨hc.1.trans hmq, fun hmm j => ?_⟩
                  rw [hc.2 (by rw [hmq]; exact hmm) j, hstrq hmm j]
                · rw [if_neg h2]
                  by_cases h3 : first.type = .LBrack && second.type ≠ .EOF
                  · rw [if_pos h3]
                    have hc := hl q2
                    refine ⟨hc.1.trans hmq, fun hmm j => ?_⟩
                    rw [hc.2 (by rw [hmq]; exact hmm) j, hstrq hmm j]
                  · rw [if_neg h3]
                    exact ⟨hmq, fun hmm j => hstrq hmm j⟩

theorem mpres_assignR (f : Nat) : MPres (assignR f) := by
  have hl := (rules_pres f).1
  exact mpres_seq hl (mpres_seq (mpres_matchTok .Equals) hl)

theorem mpres_bodyList (f : Nat) : MPres (bodyList f) :=
  mpres_seq (rules_pres f).1 (mpres_matchTok .EOF)

theorem mpres_bodyAssign (f : Nat) : MPres (bodyAssign f) :=
  mpres_seq (mpres_assignR f) (mpres_matchTok .EOF)

theorem release_eq (q : BParser) (m : Nat) (rest : List Nat)
    (h : q.markers = m :: rest) :
    release q = { q with markers := rest, pos := m } := by
  unfold release
  rw [h]

/-- `speculateList`, whether it reports success or failure, restores the
cursor to the marked position, restores the marker stack, and leaves the
observable token sequence unchanged (the trial parse only appended to the
buffer). -/
theorem speculateList_rollback (f : Nat) (p : BParser) (b : Bool) (p' : BParser)
    (h : speculateListF f p = (.ok b, p')) :
    p'.pos = p.pos ∧ p'.markers = p.markers ∧
      ∀ i, streamOf p' i = streamOf p i := by
  unfold speculateListF at h
  have hb := mpres_bodyList f (mark p)
  cases hs : bodyList f (mark p) with
  | mk r q =>
    rw [hs] at h hb
    have hmk : (mark p).markers = p.pos :: p.markers := rfl
    have hq1 : q.markers = p.pos :: p.markers := hb.1.trans hmk
    have hqs : ∀ i, streamOf q i = streamOf p i := by
      intro i
      exact hb.2 (by rw [hmk]; simp) i
    have hrel : release q = { q with markers := p.markers, pos := p.pos } :=
      release_eq q _ _ hq1
    cases r with
    | ok u =>
      obtain ⟨_, h2⟩ := Prod.mk.inj h
      rw [← h2, hrel]
      exact ⟨rfl, rfl, fun i => hqs i⟩
    | error e =>
      cases e with
      | fuel => simp at h
      | lexical e' =>
        obtain ⟨_, h2⟩ := Prod.mk.inj h
        rw [← h2, hrel]
        exact ⟨rfl, rfl, fun i => hqs i⟩
      | matchErr a b' =>
        obtain ⟨_, h2⟩ := Prod.mk.inj h
        rw [← h2, hrel]
        exact ⟨rfl, rfl, fun i => hqs i⟩
      | elementErr a =>
        obtain ⟨_, h2⟩ := Prod.mk.inj h
        rw [← h2, hrel]
        exact ⟨rfl, rfl, fun i => hqs i⟩
      | statErr a =>
        obtain ⟨_, h2⟩ := Prod.mk.inj h
        rw [← h2, hrel]
        exact ⟨rfl, rfl, fun i => hqs i⟩

/-- `speculateAssign` restores cursor, marker stack, and observable
sequence just like `speculateList`. -/
theorem speculateAssign_rollback (f : Nat) (p : BParser) (b : Bool) (p' : BParser)
    (h : speculateAssignF f p = (.ok b, p')) :
    p'.pos = p.pos ∧ p'.markers = p.markers ∧
      ∀ i, streamOf p' i = streamOf p i := by
  unfold speculateAssignF at h
  have hb := mpres_bodyAssign f (mark p)
  cases hs : bodyAssign f (mark p) with
  | mk r q =>
    rw [hs] at h hb
    have hmk : (mark p).markers = p.pos :: p.markers := rfl
    have hq1 : q.markers = p.pos :: p.markers := hb.1.trans hmk
    have hqs : ∀ i, streamOf q i = streamOf p i := by
      intro i
      exact hb.2 (by rw [hmk]; simp) i
    have hrel : release q = { q with markers := p.markers, pos := p.pos } :=
      release_eq q _ _ hq1
    cases r with
    | ok u =>
      obtain ⟨_, h2⟩ := Prod.mk.inj h
      rw [← h2, hrel]
      exact ⟨rfl, rfl, fun i => hqs i⟩
    | error e =>
      cases e with
      | fuel => simp at h
      | lexical e' =>
        obtain ⟨_, h2⟩ := Prod.mk.inj h
        rw [← h2, hrel]
        exact ⟨rfl, rfl, fun i => hqs i⟩
      | matchErr a b' =>
        obtain ⟨_, h2⟩ := Prod.mk.inj h
        rw [← h2, hrel]
        exact ⟨rfl, rfl, fun i => hqs i⟩
      | elementErr a =>
        obtain ⟨_, h2⟩ := Prod.mk.inj h
        rw [← h2, hrel]
        exact ⟨rfl, rfl, fun i => hqs i⟩
      | statErr a =>
        obtain ⟨_, h2⟩ := Prod.mk.inj h
        rw [← h2, hrel]
        exact ⟨rfl, rfl, fun i => hqs i⟩

end chapter3

open chapter3 in
/-- C3: whenever a speculation (`speculateList` or `speculateAssign`)
reports failure, the cursor is back at its pre-call value, the marker stack
is as before the call, and `peek(1)` returns exactly what it would have
returned before the call — the failed trial's only trace is a longer
buffer, which `peek` cannot distinguish from lazily lexed tokens. -/
theorem speculate_failure_rollback (f : Nat) (p : BParser) :
    ((speculateListF f p).1 = .ok false →
      (speculateListF f p).2.pos = p.pos ∧
      (speculateListF f p).2.markers = p.markers ∧
      (peek 1 (speculateListF f p).2).1 = (peek 1 p).1) ∧
    ((speculateAssignF f p).1 = .ok false →
      (speculateAssignF f p).2.pos = p.pos ∧
      (speculateAssignF f p).2.markers = p.markers ∧
      (peek 1 (speculateAssignF f p).2).1 = (peek 1 p).1) := by
  constructor
  · cases hs : speculateListF f p with
    | mk r p' =>
      dsimp only
      intro h
      subst h
      obtain ⟨h1, h2, h3⟩ := speculateList_rollback f p false p' hs
      refine ⟨h1, h2, ?_⟩
      rw [peek_fst 1 p' (by omega), peek_fst 1 p (by omega), h1]
      exact h3 _
  · cases hs : speculateAssignF f p with
    | mk r p' =>
      dsimp only
      intro h
      subst h
      obtain ⟨h1, h2, h3⟩ := speculateAssign_rollback f p false p' hs
      refine ⟨h1, h2, ?_⟩
      rw [peek_fst 1 p' (by omega), peek_fst 1 p (by omega), h1]
      exact h3 _

open chapter3 in
/-- C3 witness: on `"[a]=[b]"` the `list EOF` speculation fails (an `=`
follows the list); position, markers, and the `peek(1)` token are as
before the call. -/
theorem speculate_failure_rollback_witness :
    (speculateListF 30 (newBacktrackingParser (newLexer "[a]=[b]")).2).2.pos =
      (newBacktrackingParser (newLexer "[a]=[b]")).2.pos ∧
    (speculateListF 30 (newBacktrackingParser (newLexer "[a]=[b]")).2).2.markers =
      (newBacktrackingParser (newLexer "[a]=[b]")).2.markers ∧
    (peek 1 (speculateListF 30 (newBacktrackingParser (newLexer "[a]=[b]")).2).2).1 =
      (peek 1 (newBacktrackingParser (newLexer "[a]=[b]")).2).1 :=
  (speculate_failure_rollback 30 (newBacktrackingParser (newLexer "[a]=[b]")).2).1 (by rfl)

open chapter3 in
/-- C7 counterexample: on `"[a]"` the `list EOF` speculation succeeds, but
`speculateList` ends by calling `release()` on the success path too, so the
cursor after the call is the pre-call position `0`, not the position `4`
reached at the end of the recognized alternative (`stat` re-parses the
alternative non-speculatively afterwards). -/
theorem speculate_success_rewinds :
    (speculateListF 30 (newBacktrackingParser (newLexer "[a]")).2).1 = .ok true ∧
    (speculateListF 30 (newBacktrackingParser (newLexer "[a]")).2).2.pos = 0 ∧
    (bodyList 30 (mark (newBacktrackingParser (newLexer "[a]")).2)).1 = .ok () ∧
    (bodyList 30 (mark (newBacktrackingParser (newLexer "[a]")).2)).2.pos = 4 ∧
    (0 : Nat) ≠ 4 :=
  ⟨by rfl, by rfl, by rfl, by rfl, by decide⟩

open chapter3 in
/-- C7 amended: when a speculation reports success, the cursor after the
call is the *pre-call* position (the marker is released on success as
well), with the marker stack restored; the caller then re-runs the
recognized alternative non-speculatively over the already-buffered
tokens. -/
theorem speculate_success_restores (f : Nat) (p : BParser) :
    ((speculateListF f p).1 = .ok true →
      (speculateListF f p).2.pos = p.pos ∧
      (speculateListF f p).2.markers = p.markers) ∧
    ((speculateAssignF f p).1 = .ok true →
      (speculateAssignF f p).2.pos = p.pos ∧
      (speculateAssignF f p).2.markers = p.markers) := by
  constructor
  · cases hs : speculateListF f p with
    | mk r p' =>
      dsimp only
      intro h
      subst h
      obtain ⟨h1, h2, _⟩ := speculateList_rollback f p true p' hs
      exact ⟨h1, h2⟩
  · cases hs : speculateAssignF f p with
    | mk r p' =>
      dsimp only
      intro h
      subst h
      obtain ⟨h1, h2, _⟩ := speculateAssign_rollback f p true p' hs
      exact ⟨h1, h2⟩

open chapter3 in
/-- C7 amended witness: on `"[a]"` the successful speculation hands the
cursor back at the pre-call position with the marker stack intact. -/
theorem speculate_success_restores_witness :
    (speculateListF 30 (newBacktrackingParser (newLexer "[a]")).2).2.pos =
      (newBacktrackingParser (newLexer "[a]")).2.pos ∧
    (speculateListF 30 (newBacktrackingParser (newLexer "[a]")).2).2.markers =
      (newBacktrackingParser (newLexer "[a]")).2.markers :=
  (speculate_success_restores 30 (newBacktrackingParser (newLexer "[a]")).2).1 (by rfl)

namespace chapter3

theorem sync_error_lexical (i : Nat) (p q : BParser) (e : PErr)
    (h : sync i p = (.error e, q)) : ∃ e', e = .lexical e' := by
  unfold sync at h
  by_cases hc : p.pos + i > p.lookahead.length
  · rw [if_pos hc] at h
    obtain ⟨j, _, e', he, _⟩ := fill_error _ _ _ _ h
    exact ⟨e', he⟩
  · rw [if_neg hc] at h
    simp at h

theorem peek_error_lexical (n : Nat) (p q : BParser) (e : PErr)
    (h : peek n p = (.error e, q)) : ∃ e', e = .lexical e' := by
  unfold peek at h
  cases hs : sync n p with
  | mk r q' =>
    rw [hs] at h
    dsimp only at h
    cases r with
    | error e'' =>
      obtain ⟨h1, _⟩ := Prod.mk.inj h
      injection h1 with h1
      obtain ⟨e', he⟩ := sync_error_lexical n p q' e'' hs
      exact ⟨e', h1 ▸ he⟩
    | ok u => simp at h

/-- A panic known to be lexical is not `stat`'s decision-point error. -/
theorem isStatErr_of_error_eq {α : Type} {e e' : PErr} {e'' : LexErr}
    (h : (Except.error e' : Except PErr α) = Except.error e)
    (he : e' = PErr.lexical e'') : isStatErr e = false := by
  injection h with h
  rw [← h, he]
  rfl

theorem bconsume_error_lexical (p q : BParser) (e : PErr)
    (h : bconsume p = (.error e, q)) : ∃ e', e = .lexical e' := by
  unfold bconsume at h
  exact sync_error_lexical 1 _ _ _ h

theorem nostat_matchTok (typ : TokenType) : NoStat (matchTok typ) := by
  intro p e h
  unfold matchTok at h
  cases hs : peek 1 p with
  | mk r q =>
    rw [hs] at h
    cases r with
    | error e' =>
      dsimp only at h
      obtain ⟨e'', he⟩ := peek_error_lexical 1 p q e' hs
      exact isStatErr_of_error_eq h he
    | ok tok =>
      dsimp only at h
      by_cases ht : tok.type = typ
      · rw [if_pos ht] at h
        cases hb : bconsume q with
        | mk rb qb =>
          rw [hb] at h
          cases rb with
          | error eb =>
            dsimp only at h
            obtain ⟨e'', he⟩ := bconsume_error_lexical q qb eb hb
            exact isStatErr_of_error_eq h he
          | ok u => simp at h
      · rw [if_neg ht] at h
        dsimp only at h
        injection h with h
        rw [← h]
        rfl

theorem nostat_seq {A B : BParser → Except PErr Unit × BParser}
    (hA : NoStat A) (hB : NoStat B) : NoStat (fun p => seq (A p) B) := by
  intro p e h
  dsimp only at h
  cases hs : A p with
  | mk r q =>
    rw [hs] at h
    cases r with
    | error e' =>
      rw [seq_error] at h
      exact hA p e (by rw [hs, ← h])
    | ok u =>
      rw [seq_ok] at h
      exact hB q e h

/-- No grammar-rule routine ever raises `stat`'s decision-point
`SyntaxError`: their panics are match errors, element errors, lexical
errors, or this embedding's fuel marker. -/
theorem rules_nostat (f : Nat) :
    NoStat (listR f) ∧ NoStat (elementsR f) ∧ NoStat (elementsLoop f) ∧
      NoStat (elementR f) := by
  induction f with
  | zero =>
    refine ⟨?_, ?_, ?_, ?_⟩ <;>
      exact fun p e h => by
        have hf : Except.error (α := Unit) PErr.fuel = Except.error e := h
        injection hf with hf
        rw [← hf]
        rfl
  | succ f ih =>
    obtain ⟨hl, he, hlp, hel⟩ := ih
    refine ⟨?_, ?_, ?_, ?_⟩
    · exact nostat_seq (nostat_matchTok .LBrack) (nostat_seq he (nostat_matchTok .RBrack))
    · exact nostat_seq hel hlp
    · intro p e h
      simp only [elementsLoop] at h
      cases hs : peek 1 p with
      | mk r q =>
        rw [hs] at h
        cases r with
        | error e' =>
          dsimp only at h
          obtain ⟨e'', hee⟩ := peek_error_lexical 1 p q e' hs
          exact isStatErr_of_error_eq h hee
        | ok tok =>
          dsimp only at h
          by_cases ht : tok.type = .Comma
          · rw [if_pos ht] at h
            exact nostat_seq (nostat_matchTok .Comma) (nostat_seq hel hlp) q e h
          · rw [if_neg ht] at h
            simp at h
    · intro p e h
      simp only [elementR] at h
      cases hs : peek 1 p with
      | mk r q =>
        rw [hs] at h
        cases r with
        | error e' =>
          dsimp only at h
          obtain ⟨e'', hee⟩ := peek_error_lexical 1 p q e' hs
          exact isStatErr_of_error_eq h hee
        | ok first =>
          dsimp only at h
          cases hs2 : peek 2 q with
          | mk r2 q2 =>
            rw [hs2] at h
            cases r2 with
            | error e2 =>
              dsimp only at h
              obtain ⟨e'', hee⟩ := peek_error_lexical 2 q q2 e2 hs2
              exact isStatErr_of_error_eq h hee
            | ok second =>
              dsimp only at h
              by_cases h1 : (first.type = .Name && second.type = .Equals) = true
              · rw [if_pos h1] at h
                exact nostat_seq (nostat_matchTok .Name)
                  (nostat_seq (nostat_matchTok .Equals) (nostat_matchTok .Name)) q2 e h
              · rw [if_neg h1] at h
                by_cases h2 : first.type = .Name
                · rw [if_pos h2] at h
                  exact nostat_matchTok .Name q2 e h
                · rw [if_neg h2] at h
                  by_cases h3 : (first.type = .LBrack && second.type ≠ .EOF) = true
                  · rw [if_pos h3] at h
                    exact hl q2 e h
                  · rw [if_neg h3] at h
                    dsimp only at h
                    injection h with h
                    rw [← h]
                    rfl

theorem nostat_bodyList (f : Nat) : NoStat (bodyList f) :=
  nostat_seq (rules_nostat f).1 (nostat_matchTok .EOF)

theorem nostat_bodyAssign (f : Nat) : NoStat (bodyAssign f) :=
  nostat_seq
    (nostat_seq (rules_nostat f).1 (nostat_seq (nostat_matchTok .Equals) (rules_nostat f).1))
    (nostat_matchTok .EOF)

/-- A speculation's only possible panic is this embedding's fuel marker:
the Go `recover` catches every panic of the trial parse. -/
theorem speculateList_error_fuel (f : Nat) (p q : BParser) (e : PErr)
    (h : speculateListF f p = (.error e, q)) : e = .fuel := by
  unfold speculateListF at h
  cases hs : bodyList f (mark p) with
  | mk r q' =>
    rw [hs] at h
    cases r with
    | ok u => simp at h
    | error e' =>
      cases e' with
      | fuel => obtain ⟨h1, _⟩ := Prod.mk.inj h; injection h1 with h1; exact h1.symm
      | lexical a => simp at h
      | matchErr a b => simp at h
      | elementErr a => simp at h
      | statErr a => simp at h

theorem speculateAssign_error_fuel (f : Nat) (p q : BParser) (e : PErr)
    (h : speculateAssignF f p = (.error e, q)) : e = .fuel := by
  unfold speculateAssignF at h
  cases hs : bodyAssign f (mark p) with
  | mk r q' =>
    rw [hs] at h
    cases r with
    | ok u => simp at h
    | error e' =>
      cases e' with
      | fuel => obtain ⟨h1, _⟩ := Prod.mk.inj h; injection h1 with h1; exact h1.symm
      | lexical a => simp at h
      | matchErr a b => simp at h
      | elementErr a => simp at h
      | statErr a => simp at h

end chapter3

open chapter3 in
/-- C2: `stat` tries its alternatives in the fixed order "list EOF" then
"assign EOF"; it commits to the first whose trial parse succeeds (re-running
it non-speculatively over the buffered tokens), and it raises its
decision-point `SyntaxError` — citing the type of the `peek(1)` token at
the decision point — exactly when both speculations report failure. -/
theorem stat_ordered_choice (f : Nat) (p : BParser)
    (h : p.pos < p.lookahead.length) :
    ((speculateListF f p).1 = .ok true →
      statR f p = bodyList f (speculateListF f p).2) ∧
    ((speculateListF f p).1 = .ok false →
      (speculateAssignF f (speculateListF f p).2).1 = .ok true →
      statR f p = bodyAssign f (speculateAssignF f (speculateListF f p).2).2) ∧
    (∀ t, (statR f p).1 = .error (.statErr t) ↔
      ((speculateListF f p).1 = .ok false ∧
       (speculateAssignF f (speculateListF f p).2).1 = .ok false ∧
       t = (p.lookahead.getD p.pos default).type)) := by
  refine ⟨?_, ?_, ?_⟩
  · intro h1
    unfold statR
    cases hs1 : speculateListF f p with
    | mk r1 q1 =>
      rw [hs1] at h1
      dsimp only at h1
      subst h1
      rfl
  · intro h1 h2
    unfold statR
    cases hs1 : speculateListF f p with
    | mk r1 q1 =>
      rw [hs1] at h1 h2
      dsimp only at h1
      subst h1
      dsimp only at h2 ⊢
      cases hs2 : speculateAssignF f q1 with
      | mk r2 q2 =>
        rw [hs2] at h2
        dsimp only at h2
        subst h2
        rfl
  · intro t
    cases hs1 : speculateListF f p with
    | mk r1 q1 =>
      constructor
      · intro ht
        unfold statR at ht
        rw [hs1] at ht
        cases r1 with
        | error e1 =>
          have he1 := speculateList_error_fuel f p q1 e1 hs1
          subst he1
          dsimp only at ht
          injection ht with ht
          simp at ht
        | ok b1 =>
          cases b1 with
          | true =>
            dsimp only at ht
            have := nostat_bodyList f q1 _ ht
            simp [isStatErr] at this
          | false =>
            dsimp only at ht
            cases hs2 : speculateAssignF f q1 with
            | mk r2 q2 =>
              rw [hs2] at ht
              cases r2 with
              | error e2 =>
                have he2 := speculateAssign_error_fuel f q1 q2 e2 hs2
                subst he2
                dsimp only at ht
                injection ht with ht
                simp at ht
              | ok b2 =>
                cases b2 with
                | true =>
                  dsimp only at ht
                  have := nostat_bodyAssign f q2 _ ht
                  simp [isStatErr] at this
                | false =>
                  dsimp only at ht
                  obtain ⟨hq1p, hq1m, hq1s⟩ :=
                    speculateList_rollback f p false q1 hs1
                  obtain ⟨hq2p, hq2m, hq2s⟩ :=
                    speculateAssign_rollback f q1 false q2 hs2
                  have hstream : (peek 1 q2).1 =
                      .ok (p.lookahead.getD p.pos default) := by
                    rw [peek_fst 1 q2 (by omega),
                      show q2.pos + 1 - 1 = q2.pos from by omega,
                      hq2p, hq1p, hq2s, hq1s]
                    exact streamOf_lt p p.pos h
                  cases hp : peek 1 q2 with
                  | mk rp qp =>
                    rw [hp] at ht hstream
                    dsimp only at ht hstream
                    cases rp with
                    | error ep => simp at hstream
                    | ok tok =>
                      injection ht with ht
                      injection ht with ht
                      injection hstream with hstream
                      exact ⟨rfl, rfl, by rw [← ht, ← hstream]⟩
      · intro hall
        obtain ⟨hf1, hf2, htt⟩ := hall
        replace hf1 : r1 = Except.ok false := hf1
        subst hf1
        replace hf2 : (speculateAssignF f q1).1 = Except.ok false := hf2
        unfold statR
        rw [hs1]
        dsimp only
        cases hs2 : speculateAssignF f q1 with
        | mk r2 q2 =>
          rw [hs2] at hf2
          replace hf2 : r2 = Except.ok false := hf2
          subst hf2
          dsimp only
          obtain ⟨hq1p, hq1m, hq1s⟩ := speculateList_rollback f p false q1 hs1
          obtain ⟨hq2p, hq2m, hq2s⟩ := speculateAssign_rollback f q1 false q2 hs2
          have hstream : (peek 1 q2).1 = .ok (p.lookahead.getD p.pos default) := by
            rw [peek_fst 1 q2 (by omega),
              show q2.pos + 1 - 1 = q2.pos from by omega,
              hq2p, hq1p, hq2s, hq1s]
            exact streamOf_lt p p.pos h
          cases hp : peek 1 q2 with
          | mk rp qp =>
            rw [hp] at hstream
            dsimp only at hstream
            cases rp with
            | error ep => simp at hstream
            | ok tok =>
              dsimp only
              injection hstream with hstream
              rw [htt, hstream]

open chapter3 in
/-- C2 witness: on `"[a]"` the first alternative's trial succeeds and
`stat` is its non-speculative re-run; the decision-point error appears
exactly when both speculations fail (not here). -/
theorem stat_ordered_choice_witness :
    ((speculateListF 30 (newBacktrackingParser (newLexer "[a]")).2).1 = .ok true →
      statR 30 (newBacktrackingParser (newLexer "[a]")).2 =
        bodyList 30 (speculateListF 30 (newBacktrackingParser (newLexer "[a]")).2).2) ∧
    ((speculateListF 30 (newBacktrackingParser (newLexer "[a]")).2).1 = .ok false →
      (speculateAssignF 30
        (speculateListF 30 (newBacktrackingParser (newLexer "[a]")).2).2).1 = .ok true →
      statR 30 (newBacktrackingParser (newLexer "[a]")).2 =
        bodyAssign 30 (speculateAssignF 30
          (speculateListF 30 (newBacktrackingParser (newLexer "[a]")).2).2).2) ∧
    (∀ t, (statR 30 (newBacktrackingParser (newLexer "[a]")).2).1 =
        .error (.statErr t) ↔
      ((speculateListF 30 (newBacktrackingParser (newLexer "[a]")).2).1 = .ok false ∧
       (speculateAssignF 30
         (speculateListF 30 (newBacktrackingParser (newLexer "[a]")).2).2).1 = .ok false ∧
       t = ((newBacktrackingParser (newLexer "[a]")).2.lookahead.getD
         (newBacktrackingParser (newLexer "[a]")).2.pos default).type)) :=
  stat_ordered_choice 30 (newBacktrackingParser (newLexer "[a]")).2 (by decide)

open chapter3 in
/-- C4 counterexample: on `"[z"` the lookahead extension inside the
`list EOF` trial parse panics with the lexical error on `'z'`; the
speculation's deferred recover catches it and reports plain failure, the
`assign EOF` alternative is tried next (and fails the same way), and
`stat` ends with the decision-point `SyntaxError` — the lexical error never
reaches the caller and a further grammar alternative was retried after
it. -/
theorem lexical_error_caught_by_speculation :
    (bodyList 30 (mark (newBacktrackingParser (newLexer "[z")).2)).1 =
      .error (.lexical ⟨'z'⟩) ∧
    (speculateListF 30 (newBacktrackingParser (newLexer "[z")).2).1 = .ok false ∧
    (speculateAssignF 30
      (speculateListF 30 (newBacktrackingParser (newLexer "[z")).2).2).1 = .ok false ∧
    (statR 30 (newBacktrackingParser (newLexer "[z")).2).1 =
      .error (.statErr .LBrack) :=
  ⟨by rfl, by rfl, by rfl, by rfl⟩

open chapter3 in
/-- C4 amended: every panic of a trial parse — the lexical panic raised in
`fill` during lookahead extension included — is caught by the enclosing
speculation's deferred recover and converted into "this alternative does
not match" (position rolled back, `false` reported), after which `stat`
retries the next alternative; a lexical error aborts the whole parse only
where no speculation encloses it. -/
theorem speculation_catches_all_panics (f : Nat) (p : BParser) :
    (∀ e q, bodyList f (mark p) = (.error e, q) → e ≠ .fuel →
      speculateListF f p = (.ok false, release q)) ∧
    (∀ e q, bodyAssign f (mark p) = (.error e, q) → e ≠ .fuel →
      speculateAssignF f p = (.ok false, release q)) := by
  constructor
  · intro e q hb hf
    unfold speculateListF
    rw [hb]
    cases e with
    | fuel => exact absurd rfl hf
    | lexical a => rfl
    | matchErr a b => rfl
    | elementErr a => rfl
    | statErr a => rfl
  · intro e q hb hf
    unfold speculateAssignF
    rw [hb]
    cases e with
    | fuel => exact absurd rfl hf
    | lexical a => rfl
    | matchErr a b => rfl
    | elementErr a => rfl
    | statErr a => rfl

open chapter3 in
/-- C4 amended witness: on `"[z"` the lexical panic of the `list EOF`
trial is converted into a plain `false` report with the rollback applied. -/
theorem speculation_catches_all_panics_witness :
    speculateListF 30 (newBacktrackingParser (newLexer "[z")).2 =
      (.ok false,
        release (bodyList 30 (mark (newBacktrackingParser (newLexer "[z")).2)).2) :=
  (speculation_catches_all_panics 30 (newBacktrackingParser (newLexer "[z")).2).1
    (.lexical ⟨'z'⟩) (bodyList 30 (mark (newBacktrackingParser (newLexer "[z")).2)).2
    (by rfl) (by decide)

open chapter3 in
/-- C1 (code bug): the string `"[z]"` matches the grammar (`statement :=
list EndOfInput`, `NAME := [a-zA-Z]+`, as the spec and the sources' own
grammar comments state it), yet the parse does not succeed: the code's
`isLetter` stops short of `'z'`, the lexer cannot produce the `Name` token,
both speculations fail, and `stat` panics with its decision-point
`SyntaxError` instead of consuming to `EndOfInput`. -/
theorem grammar_string_rejected_by_stat :
    grammar.matchesGrammar "[z]" ∧
    (newBacktrackingParser (newLexer "[z]")).1 = .ok () ∧
    (statR 30 (newBacktrackingParser (newLexer "[z]")).2).1 =
      .error (.statErr .LBrack) := by
  refine ⟨?_, by rfl, by rfl⟩
  refine ⟨[⟨.LBrack, "["⟩, ⟨.Name, "z"⟩, ⟨.RBrack, "]"⟩], by rfl, ?_⟩
  left
  exact grammar.GList.mk
    (grammar.GElements.single (grammar.GElement.name "z" (by decide) (by decide)))

open chapter3 in
/-- C6: with `first` the token `peek(1)` returns and `second` the token
`peek(2)` returns, `element` parses an assignment `NAME '=' NAME` exactly
when `first` is `Name` and `second` is `Equals`; otherwise a `Name` `first`
is parsed as a bare name; otherwise a `LeftBracket` `first` whose `second`
is not `EndOfInput` is parsed as a nested list; in every remaining case
`element` raises its `SyntaxError` citing `first`'s type. -/
theorem element_two_token_choice (f : Nat) (p p₁ p₂ : BParser) (t₁ t₂ : Token)
    (h₁ : peek 1 p = (.ok t₁, p₁)) (h₂ : peek 2 p₁ = (.ok t₂, p₂)) :
    (t₁.type = .Name → t₂.type = .Equals →
      elementR (f + 1) p =
        seq (matchTok .Name p₂) fun q => seq (matchTok .Equals q) fun q =>
          matchTok .Name q) ∧
    (t₁.type = .Name → t₂.type ≠ .Equals →
      elementR (f + 1) p = matchTok .Name p₂) ∧
    (t₁.type = .LBrack → t₂.type ≠ .EOF →
      elementR (f + 1) p = listR f p₂) ∧
    (t₁.type ≠ .Name → (t₁.type = .LBrack → t₂.type = .EOF) →
      elementR (f + 1) p = (.error (.elementErr t₁.type), p₂)) := by
  refine ⟨?_, ?_, ?_, ?_⟩
  · intro a b
    simp only [elementR]
    rw [h₁]
    dsimp only
    rw [h₂]
    dsimp only
    rw [if_pos (by simp [a, b])]
  · intro a b
    simp only [elementR]
    rw [h₁]
    dsimp only
    rw [h₂]
    dsimp only
    rw [if_neg (by simp [a, b]), if_pos a]
  · intro a b
    simp only [elementR]
    rw [h₁]
    dsimp only
    rw [h₂]
    dsimp only
    rw [if_neg (by simp [a]), if_neg (by simp [a]), if_pos (by simp [a, b])]
  · intro a b
    simp only [elementR]
    rw [h₁]
    dsimp only
    rw [h₂]
    dsimp only
    rw [if_neg (by simp [a]), if_neg a, if_neg ?_]
    by_cases hb : t₁.type = .LBrack
    · simp [hb, b hb]
    · simp [hb]

open chapter3 in
/-- C6 witness: with `Name` then `Equals` buffered, `element` takes the
assignment branch. -/
theorem element_two_token_choice_witness :
    elementR 11
      { lexer := newLexer "", markers := [], pos := 0,
        lookahead := [⟨.Name, "a"⟩, ⟨.Equals, "="⟩, ⟨.Name, "b"⟩, ⟨.EOF, ""⟩] } =
      seq (matchTok .Name
        { lexer := newLexer "", markers := [], pos := 0,
          lookahead := [⟨.Name, "a"⟩, ⟨.Equals, "="⟩, ⟨.Name, "b"⟩, ⟨.EOF, ""⟩] })
        fun q => seq (matchTok .Equals q) fun q => matchTok .Name q :=
  (element_two_token_choice 10
    { lexer := newLexer "", markers := [], pos := 0,
      lookahead := [⟨.Name, "a"⟩, ⟨.Equals, "="⟩, ⟨.Name, "b"⟩, ⟨.EOF, ""⟩] }
    _ _ ⟨.Name, "a"⟩ ⟨.Equals, "="⟩ (by rfl) (by rfl)).1 rfl rfl

/-- C9 counterexample: parsing `"[,a]"` with the LL(1) parser runs
`list 20 = match(RBrack) ∘ elements 19 ∘ match(LBrack)` and
`elements 19 = elementsLoop 18 ∘ element 18`, so the state shown is on the
run's own path: `element` records its `SyntaxError` at the comma, but the
later successful consume of `Name "a"` assigns the lexer's nil error to
`err`, and the whole run ends with `err = none` — the recorded failure was
replaced by "no error". -/
theorem recorded_error_lost :
    (chapter2.pelement 18 (chapter2.pmatch .LBrack
      (chapter2.newParser (chapter2.newLexer "[,a]")))).err =
      some (.elemErr ⟨.Comma, ","⟩) ∧
    (chapter2.plist 20 (chapter2.newParser (chapter2.newLexer "[,a]"))).err =
      none :=
  ⟨by rfl, by rfl⟩

/-- C9 amended: both baseline parsers record a `match`/`element` failure
into `err`, overwriting whatever was there, and parsing continues; but
`err` holds only the most recent *write*: a later successful consume of a
non-`EOF` token writes the lexer's error — nil on success — into `err`, so
a recorded failure survives to the end only if no such consume follows
(consumes at `EOF`, and failed matches, leave `err` alone). -/
theorem error_recording :
    (∀ (s : chapter2.PState) (typ : TokenType), s.lookahead.type ≠ typ →
      (chapter2.pmatch typ s).err = some (.matchErr typ s.lookahead.type)) ∧
    (∀ (s : chapter2.PState) (f : Nat), s.lookahead.type ≠ .Name →
      s.lookahead.type ≠ .LBrack →
      (chapter2.pelement (f + 1) s).err = some (.elemErr s.lookahead)) ∧
    (∀ (s : chapter2.PState) (typ : TokenType), s.lookahead.type = typ →
      ((chapter2.lexNext s.lexer).fst.fst.type = .EOF →
        (chapter2.pmatch typ s).err = s.err) ∧
      ((chapter2.lexNext s.lexer).fst.fst.type ≠ .EOF →
        (chapter2.pmatch typ s).err = (chapter2.lexNext s.lexer).fst.snd)) ∧
    (∀ s : chapter2.LLkState,
      ((chapter2.lexNext s.lexer).fst.fst.type = .EOF →
        (chapter2.llkConsume s).err = s.err) ∧
      ((chapter2.lexNext s.lexer).fst.fst.type ≠ .EOF →
        (chapter2.llkConsume s).err = (chapter2.lexNext s.lexer).fst.snd)) := by
  refine ⟨?_, ?_, ?_, ?_⟩
  · intro s typ hne
    unfold chapter2.pmatch
    rw [if_neg hne]
  · intro s f hn hl
    simp only [chapter2.pelement]
  · intro s typ heq
    unfold chapter2.pmatch chapter2.pconsume
    rw [if_pos heq]
    constructor
    · intro he
      rw [if_pos he]
    · intro he
      rw [if_neg he]
  · intro s
    unfold chapter2.llkConsume
    constructor
    · intro he
      rw [if_neg (by simp [he])]
    · intro he
      rw [if_pos (by simp [he])]

/-- C9 amended witness: a mismatched `match` records its error over a clean
state, and the LL(1) consume of the non-`EOF` token `Name "a"` writes the
nil lexer error. -/
theorem error_recording_witness :
    (chapter2.pmatch .RBrack (chapter2.newParser (chapter2.newLexer "[,a]"))).err =
      some (.matchErr .RBrack .LBrack) ∧
    (chapter2.pmatch .LBrack (chapter2.newParser (chapter2.newLexer "[a]"))).err =
      none :=
  ⟨error_recording.1 (chapter2.newParser (chapter2.newLexer "[,a]")) .RBrack
      (by decide),
   (error_recording.2.2.1 (chapter2.newParser (chapter2.newLexer "[a]")) .LBrack
      (by rfl)).2 (by decide)⟩
